import Mathlib

/-!
Verification of the dialogue-planning and session-memory core of the
mindhive-assessment chatbot (src/planner.py and src/main.py).

Strings are modelled as `List Char`; the regular-expression searches of
`planner.py` are embedded as explicit character scanners with Python's
leftmost-match, greedy-quantifier semantics.  Character classes are the
ASCII parts of Python's `\d`, `\s`, `\w`.
-/

namespace Mindhive

-- ## Character classes (ASCII fragments of Python regex classes)

def isDigitCh (c : Char) : Bool := '0' ≤ c && c ≤ '9'

def isSpaceCh (c : Char) : Bool :=
  c == ' ' || c == '\t' || c == '\n' || c == '\r' || c == '\x0b' || c == '\x0c'

def isOpCh (c : Char) : Bool := c == '+' || c == '-' || c == '*' || c == '/'

def isWordCh (c : Char) : Bool := c.isAlpha || isDigitCh c || c == '_'

/-- ASCII lower-casing, modelling Python `str.lower()` on the inputs in scope. -/
def toLowerList (l : List Char) : List Char := l.map Char.toLower

/-- Greedy-quantifier span: longest leading run satisfying `p`, plus the rest. -/
def spanP (p : Char → Bool) : List Char → List Char × List Char
  | [] => ([], [])
  | c :: t =>
    if p c then
      let r := spanP p t
      (c :: r.1, r.2)
    else ([], c :: t)

/-- Models Python `int()` on a run of ASCII digits (never raises there). -/
def digitsToNat (l : List Char) : Nat :=
  l.foldl (fun n c => 10 * n + (c.toNat - 48)) 0

def digitsToInt (l : List Char) : Int := (digitsToNat l : Int)

/-- Models `re.search` of a fixed literal substring (a keyword pattern). -/
def containsSub : List Char → List Char → Bool
  | [], pat => pat.isPrefixOf ([] : List Char)
  | c :: t, pat => pat.isPrefixOf (c :: t) || containsSub t pat

-- ## Scanner for the symbolic pattern (\d+)\s*([+\-*/])\s*(\d+)

/-- Match of the symbolic calculation pattern anchored at the current position,
with greedy groups, returning (num1, operator char, num2). -/
def matchCalcAt (l : List Char) : Option (Int × Char × Int) :=
  let p1 := spanP isDigitCh l
  if p1.1.isEmpty then none
  else
    let p2 := spanP isSpaceCh p1.2
    match p2.2 with
    | [] => none
    | c :: r3 =>
      if isOpCh c then
        let p4 := spanP isDigitCh (spanP isSpaceCh r3).2
        if p4.1.isEmpty then none
        else some (digitsToInt p1.1, c, digitsToInt p4.1)
      else none

/-- Leftmost search for the symbolic calculation pattern, modelling
`re.search(r"(\d+)\s*([+\-*/])\s*(\d+)", text)`. -/
def scanCalc : List Char → Option (Int × Char × Int)
  | [] => none
  | c :: t =>
    match matchCalcAt (c :: t) with
    | some r => some r
    | none => scanCalc t

-- ## Scanner for (\d+)\s*(plus|minus|times|multiply|divide|substract|divided by)\s*(\d+)

/-- The operator-word alternation of the natural-language pattern, in the
source's alternation order (note `substract`, and `divide` before `divided by`). -/
def nlWords : List (List Char) :=
  ["plus".toList, "minus".toList, "times".toList, "multiply".toList,
   "divide".toList, "substract".toList, "divided by".toList]

/-- Backtracking over the word alternation: each alternative that matches as a
literal must be followed by \s*(\d+), otherwise the next alternative is tried. -/
def tryWords : List (List Char) → List Char → Option (List Char × Int)
  | [], _ => none
  | w :: ws, r =>
    if w.isPrefixOf r then
      let p := spanP isDigitCh (spanP isSpaceCh (r.drop w.length)).2
      if p.1.isEmpty then tryWords ws r else some (w, digitsToInt p.1)
    else tryWords ws r

/-- Match of the natural-language calculation pattern anchored at the current
position, returning (num1, matched word, num2). -/
def matchNLAt (l : List Char) : Option (Int × List Char × Int) :=
  let p1 := spanP isDigitCh l
  if p1.1.isEmpty then none
  else
    match tryWords nlWords (spanP isSpaceCh p1.2).2 with
    | some (w, n2) => some (digitsToInt p1.1, w, n2)
    | none => none

/-- Leftmost search for the natural-language calculation pattern. -/
def scanNL : List Char → Option (Int × List Char × Int)
  | [] => none
  | c :: t =>
    match matchNLAt (c :: t) with
    | some r => some r
    | none => scanNL t

-- ## Scanner for what is (\d+)\s*([+\-*/])\s*(\d+)

def whatIsLit : List Char := "what is ".toList

def matchWhatIsAt (l : List Char) : Option (Int × Char × Int) :=
  if whatIsLit.isPrefixOf l then matchCalcAt (l.drop whatIsLit.length) else none

/-- Leftmost search for the `what is <int> <op> <int>` pattern. -/
def scanWhatIs : List Char → Option (Int × Char × Int)
  | [] => none
  | c :: t =>
    match matchWhatIsAt (c :: t) with
    | some r => some r
    | none => scanWhatIs t

-- ## Scanner for whats\s+[\w\s]*\d+ (second alternative of the catch-all pattern)

def whatsLit : List Char := "whats".toList

/-- Existence of a digit reachable through word/space characters, the combined
effect of `[\w\s]*\d` with backtracking. -/
def findDigitThroughWS : List Char → Bool
  | [] => false
  | c :: t =>
    if isDigitCh c then true
    else if isWordCh c || isSpaceCh c then findDigitThroughWS t
    else false

def matchWhatsAt (l : List Char) : Bool :=
  whatsLit.isPrefixOf l &&
    (match l.drop whatsLit.length with
     | c :: t => isSpaceCh c && findDigitThroughWS t
     | [] => false)

def scanWhats : List Char → Bool
  | [] => false
  | c :: t => matchWhatsAt (c :: t) || scanWhats t

-- ## Scanner for ss\s*\d+

def matchSSAt : List Char → Bool
  | 's' :: 's' :: r =>
    (match (spanP isSpaceCh r).2 with
     | c :: _ => isDigitCh c
     | [] => false)
  | _ => false

def scanSS : List Char → Bool
  | [] => false
  | c :: t => matchSSAt (c :: t) || scanSS t

-- ## The apostrophe literal of the pattern what's

def apos : Char := Char.ofNat 39

/-- The literal first alternative of the pattern `what\'s|whats\s+[\w\s]*\d+`. -/
def whatAposPat : List Char := ['w', 'h', 'a', 't', apos, 's']

-- ## Data model (planner.py)

/-- The user-intention enumeration of planner.py. -/
inductive Intent
  | CALCULATION
  | OUTLET_INFO
  | GENERAL_CHAT
  | UNKNOWN
deriving DecidableEq

/-- The action enumeration of planner.py. -/
inductive Action
  | ASK_FOR_INFO
  | USE_CALCULATOR
  | USE_OUTLET_DB
  | RESPOND_DIRECTLY
deriving DecidableEq

/-- The dict returned by extract_calculation_data: all three keys are always
present together (the dict literals in the source construct them at once). -/
structure CalcData where
  num1 : Int
  operator : String
  num2 : Int
deriving DecidableEq

/-- The dict returned by extract_outlet_data. -/
structure OutletData where
  location : Option String
  info_type : Option String
deriving DecidableEq

/-- The two shapes of extracted_data dicts a PlanningResult can carry. -/
inductive ExtractedData
  | calc (d : CalcData)
  | outlet (d : OutletData)
deriving DecidableEq

/-- The PlanningResult dataclass; confidence is modelled as a rational since
only the fixed constants 0.5/0.7/0.8/0.85/0.9 ever occur. -/
structure PlanningResult where
  intent : Intent
  action : Action
  missing_info : Option String
  extracted_data : Option ExtractedData
  confidence : ℚ
deriving DecidableEq

-- ## AgenticPlanner.operator_map and the extractors

/-- The operator_map dict of AgenticPlanner.__init__ (note: it has `subtract`
but not the pattern word `substract`, whose lookup therefore misses). -/
def operator_map (w : List Char) : Option String :=
  if w = "plus".toList then some "+"
  else if w = "add".toList then some "+"
  else if w = "minus".toList then some "-"
  else if w = "subtract".toList then some "-"
  else if w = "times".toList then some "*"
  else if w = "multiply".toList then some "*"
  else if w = "divide".toList then some "/"
  else if w = "divided by".toList then some "/"
  else none

/-- AgenticPlanner.extract_calculation_data: symbolic pattern on the original
text, then the natural-language pattern on lower-cased text (falling through
when the matched word is missing from operator_map), then `what is`. -/
def extract_calculation_data (s : List Char) : Option CalcData :=
  match scanCalc s with
  | some (n1, c, n2) => some ⟨n1, String.mk [c], n2⟩
  | none =>
    let lower := toLowerList s
    let what_is_result : Option CalcData :=
      match scanWhatIs lower with
      | some (n1, c, n2) => some ⟨n1, String.mk [c], n2⟩
      | none => none
    match scanNL lower with
    | some (n1, w, n2) =>
      match operator_map w with
      | some sym => some ⟨n1, sym, n2⟩
      | none => what_is_result
    | none => what_is_result

/-- AgenticPlanner.extract_outlet_data. -/
def extract_outlet_data (s : List Char) : Option OutletData :=
  let lower := toLowerList s
  let location : Option String :=
    if containsSub lower "ss2".toList || containsSub lower "ss 2".toList then some "SS2"
    else if containsSub lower "ss15".toList || containsSub lower "ss 15".toList then some "SS15"
    else if containsSub lower "damansara".toList then some "Damansara"
    else if containsSub lower "petaling jaya".toList || containsSub lower "pj".toList then some "Petaling Jaya"
    else if containsSub lower "kuala lumpur".toList || containsSub lower "kl".toList then some "Kuala Lumpur"
    else none
  let info_type : Option String :=
    if containsSub lower "opening".toList || containsSub lower "open".toList then some "opening_hours"
    else if containsSub lower "closing".toList || containsSub lower "close".toList then some "closing_hours"
    else if containsSub lower "hours".toList || containsSub lower "time".toList then some "hours"
    else none
  if location.isSome || info_type.isSome then some ⟨location, info_type⟩ else none

-- ## AgenticPlanner.analyze_intent

/-- The keyword calculation patterns `sum of|difference of|product of|quotient of`
and `calculate|math`. -/
def calcKeywordHit (l : List Char) : Bool :=
  containsSub l "sum of".toList || containsSub l "difference of".toList ||
  containsSub l "product of".toList || containsSub l "quotient of".toList ||
  containsSub l "calculate".toList || containsSub l "math".toList

/-- The catch-all pattern `what\'s|whats\s+[\w\s]*\d+`: by alternation
precedence the bare literal `what's` alone already matches. -/
def whatsCatchAllHit (l : List Char) : Bool :=
  containsSub l whatAposPat || scanWhats l

/-- Whether any of the six calculation_patterns matches (the for-loop returns
CALCULATION on the first hit, so only the disjunction matters). -/
def calculation_patterns_hit (l : List Char) : Bool :=
  (scanCalc l).isSome || (scanWhatIs l).isSome || (scanNL l).isSome ||
  calcKeywordHit l || whatsCatchAllHit l

/-- The keyword outlet patterns (everything except `ss\s*\d+`). -/
def outletKeywordHit (l : List Char) : Bool :=
  containsSub l "outlet".toList || containsSub l "store".toList ||
  containsSub l "shop".toList || containsSub l "location".toList ||
  containsSub l "branch".toList ||
  containsSub l "opening".toList || containsSub l "closing".toList ||
  containsSub l "hours".toList || containsSub l "time".toList ||
  containsSub l "damansara".toList || containsSub l "petaling jaya".toList ||
  containsSub l "kuala lumpur".toList || containsSub l "pj".toList ||
  containsSub l "kl".toList

/-- Whether any of the four outlet_patterns matches. -/
def outlet_patterns_hit (l : List Char) : Bool :=
  scanSS l || outletKeywordHit l

/-- AgenticPlanner.analyze_intent: calculation patterns first, then outlet
patterns, defaulting to GENERAL_CHAT, all on the lower-cased input. -/
def analyze_intent (s : List Char) : Intent :=
  let lower := toLowerList s
  if calculation_patterns_hit lower then Intent.CALCULATION
  else if outlet_patterns_hit lower then Intent.OUTLET_INFO
  else Intent.GENERAL_CHAT

-- ## AgenticPlanner.plan_next_action

/-- Single-quote character, written out so the source's quoted prompt strings
can be reproduced verbatim. -/
def sq : String := String.mk [apos]

/-- The clarifying prompt of the calculation ASK_FOR_INFO branch. -/
def calcAskPrompt : String :=
  "I can help with calculations! What numbers and operation do you need? (e.g., " ++
  sq ++ "5 + 3" ++ sq ++ " or " ++ sq ++ "10 times 5" ++ sq ++ ")"

/-- Python `str.replace("_", " ")` on the info_type values. -/
def replaceUS (s : String) : String :=
  String.mk (s.toList.map (fun c => if c = '_' then ' ' else c))

/-- Membership test against the general-area list ['Petaling Jaya', 'Kuala Lumpur']. -/
def isGeneralLoc (l : String) : Bool := l == "Petaling Jaya" || l == "Kuala Lumpur"

/-- Scenario-1 condition: a location was extracted and it is not a general area. -/
def specificLocFound (d : OutletData) : Bool :=
  match d.location with
  | some l => !(isGeneralLoc l)
  | none => false

/-- Scenario-2 condition: general-area location or no location, plus an info_type. -/
def generalOrNoLocWithInfo (d : OutletData) : Bool :=
  (match d.location with
   | some l => isGeneralLoc l
   | none => true) && d.info_type.isSome

/-- Scenario-3 condition: general-area location and no info_type. -/
def generalLocNoInfo (d : OutletData) : Bool :=
  (match d.location with
   | some l => isGeneralLoc l
   | none => false) && !d.info_type.isSome

/-- AgenticPlanner.plan_next_action: analyze intent, extract, and choose the
action/confidence/prompt exactly along the source's if/elif chains. -/
def plan_next_action (s : List Char) : PlanningResult :=
  match analyze_intent s with
  | Intent.CALCULATION =>
    (match extract_calculation_data s with
     | some d =>
       ⟨Intent.CALCULATION, Action.USE_CALCULATOR, none, some (ExtractedData.calc d), 0.9⟩
     | none =>
       ⟨Intent.CALCULATION, Action.ASK_FOR_INFO, some calcAskPrompt, none, 0.8⟩)
  | Intent.OUTLET_INFO =>
    (match extract_outlet_data s with
     | some d =>
       if specificLocFound d then
         ⟨Intent.OUTLET_INFO, Action.USE_OUTLET_DB, none, some (ExtractedData.outlet d), 0.9⟩
       else if generalOrNoLocWithInfo d then
         ⟨Intent.OUTLET_INFO, Action.ASK_FOR_INFO,
          some ("Yes, we have outlets in Petaling Jaya! Which specific outlet are you referring to (e.g., SS2, SS15, Damansara) to check the " ++
            replaceUS (d.info_type.getD "") ++ "?"),
          some (ExtractedData.outlet d), 0.85⟩
       else if generalLocNoInfo d then
         ⟨Intent.OUTLET_INFO, Action.ASK_FOR_INFO,
          some ("Yes, we have outlets in " ++ d.location.getD "" ++ "! Which specific outlet are you referring to?"),
          some (ExtractedData.outlet d), 0.85⟩
       else
         ⟨Intent.OUTLET_INFO, Action.ASK_FOR_INFO,
          some ("Which outlet are you asking about? Please specify a location (e.g., SS2, SS15, Damansara) or what kind of information you" ++
            sq ++ "re looking for."),
          some (ExtractedData.outlet d), 0.7⟩
     | none =>
       ⟨Intent.OUTLET_INFO, Action.ASK_FOR_INFO,
        some ("Which outlet are you asking about? Please specify a location (e.g., SS2, SS15, Damansara) or what kind of information you" ++
          sq ++ "re looking for."),
        none, 0.7⟩)
  | Intent.GENERAL_CHAT =>
    ⟨Intent.GENERAL_CHAT, Action.RESPOND_DIRECTLY, none, none, 0.5⟩
  | Intent.UNKNOWN =>
    ⟨Intent.UNKNOWN, Action.RESPOND_DIRECTLY, none, none, 0.5⟩

-- ## The tool helpers of planner.py

/-- Models `str(num1 / num2)` for nonzero num2, Python true (float) division.
The exact float formatting is outside this integer-level embedding; the
verified properties only concern the two error branches, which this value can
never collide with since it is only produced when num2 is nonzero. -/
def floatDivRepr (a b : Int) : String := toString a ++ " / " ++ toString b

/-- perform_simple_calculation of planner.py: the four operator branches, the
division-by-zero guard, and the invalid-operator fallback.  The surrounding
try/except can only rethrow what the branches produce, since integer
arithmetic and str() do not raise. -/
def perform_simple_calculation (num1 : Int) (operator : String) (num2 : Int) : String :=
  if operator = "+" then toString (num1 + num2)
  else if operator = "-" then toString (num1 - num2)
  else if operator = "*" then toString (num1 * num2)
  else if operator = "/" then
    if num2 = 0 then "Error: Division by zero is not allowed."
    else floatDivRepr num1 num2
  else "Error: Invalid operator for calculation."

/-- One value of the location_map dict of get_mock_outlet_info; the two
general-area entries carry only general_info, so their hour fields are absent. -/
structure OutletRecordM where
  opening_hours : Option String
  closing_hours : Option String
  general_info : String
deriving DecidableEq

/-- The location_map dict of get_mock_outlet_info. -/
def location_map (loc : String) : Option OutletRecordM :=
  if loc = "SS2" then
    some ⟨some "9:00 AM", some "10:00 PM", "a bustling spot in Petaling Jaya with good vibes."⟩
  else if loc = "SS15" then
    some ⟨some "8:00 AM", some "9:00 PM", "a lively student hangout spot."⟩
  else if loc = "Damansara" then
    some ⟨some "7:00 AM", some "11:00 PM", "a cozy spot for early birds in Damansara."⟩
  else if loc = "Petaling Jaya" then
    some ⟨none, none, "several great outlets like SS2, SS15, and Damansara."⟩
  else if loc = "Kuala Lumpur" then
    some ⟨none, none, "several great outlets like our flagship KLCC branch (details not available yet!)."⟩
  else none

/-- get_mock_outlet_info of planner.py.  The `getD ""` on the hour fields
stands for Python dict indexing; those keys are present for every location
that reaches them (general areas are handled by the earlier branch). -/
def get_mock_outlet_info (location : Option String) (info_type : Option String) : String :=
  match location with
  | none => "I need a specific outlet (like SS2, SS15, or Damansara) to give you information."
  | some loc =>
    match location_map loc with
    | none =>
      "I don" ++ sq ++ "t have detailed information for an outlet specifically called " ++
      sq ++ loc ++ sq ++ ". Did you mean SS2, SS15, or Damansara?"
    | some rcd =>
      if loc = "Petaling Jaya" ∨ loc = "Kuala Lumpur" then
        match info_type with
        | some it =>
          "We have several outlets in " ++ loc ++ ". Which specific one (e.g., SS2, SS15, Damansara) are you interested in for its " ++
          replaceUS it ++ "?"
        | none =>
          "Yes, we have outlets in " ++ loc ++ ", including " ++ rcd.general_info ++
          ". Which specific outlet would you like to know about?"
      else if info_type = some "opening_hours" then
        "The " ++ loc ++ " outlet opens at " ++ rcd.opening_hours.getD "" ++ "."
      else if info_type = some "closing_hours" then
        "The " ++ loc ++ " outlet closes at " ++ rcd.closing_hours.getD "" ++ "."
      else if info_type = some "hours" then
        "The " ++ loc ++ " outlet opens at " ++ rcd.opening_hours.getD "" ++
        " and closes at " ++ rcd.closing_hours.getD "" ++ "."
      else
        "The " ++ loc ++ " outlet is " ++ rcd.general_info ++
        " Would you like to know its opening or closing hours?"

-- ## Session memory (main.py: ChatbotController)

/-- Message roles of a conversation turn (human/user vs AI/agent message). -/
inductive Role
  | user
  | agent
deriving DecidableEq

/-- One stored message of a ChatMessageHistory. -/
structure Turn where
  role : Role
  text : String
deriving DecidableEq

/-- The controller's session state: `heap` models the ChatMessageHistory
objects themselves (addressed by index, so that object identity is
expressible), `table` models the _history_store dict from session id to the
object reference. -/
structure Store where
  heap : List (List Turn)
  table : List (String × Nat)
deriving DecidableEq

/-- The freshly constructed controller: empty _history_store. -/
def initStore : Store := ⟨[], []⟩

/-- Dict lookup in _history_store. -/
def lookupTable : List (String × Nat) → String → Option Nat
  | [], _ => none
  | p :: t, sid => if p.1 = sid then some p.2 else lookupTable t sid

/-- The message list held by the history object at address `a`. -/
def heapAt (s : Store) (a : Nat) : List Turn := s.heap.getD a []

/-- The stored history of a session id: empty if the session was never seen. -/
def historyOf (s : Store) (sid : String) : List Turn :=
  match lookupTable s.table sid with
  | some a => heapAt s a
  | none => []

/-- ChatbotController.get_session_history: return the registered history
object, or create and register an empty one for an unseen session id. -/
def get_session_history (s : Store) (sid : String) : Store × Nat :=
  match lookupTable s.table sid with
  | some a => (s, a)
  | none => (⟨s.heap ++ [[]], s.table ++ [(sid, s.heap.length)]⟩, s.heap.length)

/-- ChatMessageHistory.add_user_message / add_ai_message: mutate the history
object at address `a` by appending one turn. -/
def addMessage (s : Store) (a : Nat) (t : Turn) : Store :=
  ⟨s.heap.set a (s.heap.getD a [] ++ [t]), s.table⟩

/-- The (user, agent) turn pair every branch of process_user_input records:
fetch-or-create the session history, then append the user message and the
agent reply in that order. -/
def appendPair (s : Store) (sid : String) (userText agentText : String) : Store :=
  let p := get_session_history s sid
  addMessage (addMessage p.1 p.2 ⟨Role.user, userText⟩) p.2 ⟨Role.agent, agentText⟩

/-- ChatbotController.process_user_input, parameterised by the
generative-completion collaborator `llm` (the ChatGroq model behind
RunnableWithMessageHistory), a pure function of the prior session history and
the new input.

Modelled from the spec: for the RESPOND_DIRECTLY branch the collaborator
(RunnableWithMessageHistory, library code outside this repository) reads the
session history, produces the reply from it and the new input, and appends the
same (user, agent) turn pair the deterministic branches append manually.  The
source's final `else` fallback is unreachable here because `Action` has
exactly the four planned alternatives. -/
def process_user_input (llm : List Turn → String → String)
    (s : Store) (user_input : String) (session_id : String) : Store × String :=
  let pr := plan_next_action user_input.toList
  let response : String :=
    match pr.action with
    | Action.ASK_FOR_INFO => pr.missing_info.getD ""
    | Action.USE_CALCULATOR =>
      (match pr.extracted_data with
       | some (ExtractedData.calc d) => perform_simple_calculation d.num1 d.operator d.num2
       | _ => "I encountered an issue with the calculation. Could you please rephrase the calculation clearly?")
    | Action.USE_OUTLET_DB =>
      (match pr.extracted_data with
       | some (ExtractedData.outlet d) => get_mock_outlet_info d.location d.info_type
       | _ => "I need more details to find outlet information. Please specify a location or what you" ++ sq ++ "re looking for.")
    | Action.RESPOND_DIRECTLY => llm (historyOf s session_id) user_input
  (appendPair s session_id user_input response, response)

-- ## Store well-formedness and the turn-alternation predicate

/-- Well-formedness of the controller state: every registered reference points
into the heap, and distinct dict entries have distinct session ids (dict keys)
and distinct referenced objects.  It holds for the fresh controller and is
preserved by every operation. -/
def WF (s : Store) : Prop :=
  (∀ p ∈ s.table, p.2 < s.heap.length) ∧
  s.table.Pairwise (fun p q => p.1 ≠ q.1 ∧ p.2 ≠ q.2)

instance : DecidablePred WF := fun s => by
  unfold WF
  infer_instance

/-- The user/agent alternation of a stored history: even positions are user
turns, odd positions agent turns, and the total length is even. -/
def pairsOk : List Turn → Bool
  | [] => true
  | _ :: [] => false
  | u :: a :: rest => (u.role == Role.user) && (a.role == Role.agent) && pairsOk rest

-- ## Character-class facts

theorem not_digit_of_op (c : Char) (h : isOpCh c = true) : isDigitCh c = false := by
  simp only [isOpCh, Bool.or_eq_true, beq_iff_eq] at h
  rcases h with ((h | h) | h) | h <;> subst h <;> decide

theorem not_digit_of_space (c : Char) (h : isSpaceCh c = true) : isDigitCh c = false := by
  simp only [isSpaceCh, Bool.or_eq_true, beq_iff_eq] at h
  rcases h with ((((h | h) | h) | h) | h) | h <;> subst h <;> decide

theorem not_space_of_op (c : Char) (h : isOpCh c = true) : isSpaceCh c = false := by
  simp only [isOpCh, Bool.or_eq_true, beq_iff_eq] at h
  rcases h with ((h | h) | h) | h <;> subst h <;> decide

theorem not_space_of_digit (c : Char) (h : isDigitCh c = true) : isSpaceCh c = false := by
  cases hs : isSpaceCh c with
  | false => rfl
  | true =>
    simp only [isSpaceCh, Bool.or_eq_true, beq_iff_eq] at hs
    rcases hs with ((((hs | hs) | hs) | hs) | hs) | hs <;> subst hs <;>
      exact absurd h (by decide)

-- ## spanP facts

theorem spanP_cons_pos (p : Char → Bool) (c : Char) (t : List Char) (h : p c = true) :
    spanP p (c :: t) = (c :: (spanP p t).1, (spanP p t).2) := by
  simp [spanP, h]

theorem spanP_cons_neg (p : Char → Bool) (c : Char) (t : List Char) (h : p c = false) :
    spanP p (c :: t) = ([], c :: t) := by
  simp [spanP, h]

theorem spanP_append (p : Char → Bool) :
    ∀ (l r : List Char), l.all p = true → (∀ c t, r = c :: t → p c = false) →
      spanP p (l ++ r) = (l, r)
  | [], r, _, hr => by
    cases r with
    | nil => rfl
    | cons c t => simpa using spanP_cons_neg p c t (hr c t rfl)
  | a :: l, r, hall, hr => by
    simp only [List.all_cons, Bool.and_eq_true] at hall
    rw [List.cons_append, spanP_cons_pos p a (l ++ r) hall.1,
        spanP_append p l r hall.2 hr]

theorem spanP_snd_sublist (p : Char → Bool) : ∀ l : List Char, (spanP p l).2.Sublist l
  | [] => List.Sublist.refl []
  | c :: t => by
    cases h : p c with
    | true =>
      rw [spanP_cons_pos p c t h]
      exact List.Sublist.cons c (spanP_snd_sublist p t)
    | false =>
      rw [spanP_cons_neg p c t h]

-- ## Completeness of the symbolic-pattern scanner

theorem matchCalcAt_isSome (d1 w1 w2 d2 rest : List Char) (op : Char)
    (hd1 : d1 ≠ []) (hd1d : d1.all isDigitCh = true)
    (hw1 : w1.all isSpaceCh = true) (hop : isOpCh op = true)
    (hw2 : w2.all isSpaceCh = true)
    (hd2 : d2 ≠ []) (hd2d : d2.all isDigitCh = true) :
    (matchCalcAt (d1 ++ (w1 ++ (op :: (w2 ++ (d2 ++ rest)))))).isSome = true := by
  have e1 : spanP isDigitCh (d1 ++ (w1 ++ (op :: (w2 ++ (d2 ++ rest))))) =
      (d1, w1 ++ (op :: (w2 ++ (d2 ++ rest)))) := by
    apply spanP_append _ _ _ hd1d
    intro c t hct
    cases w1 with
    | nil =>
      simp only [List.nil_append, List.cons.injEq] at hct
      rw [hct.1] at hop
      exact not_digit_of_op c hop
    | cons a w1t =>
      simp only [List.cons_append, List.cons.injEq] at hct
      simp only [List.all_cons, Bool.and_eq_true] at hw1
      rw [hct.1] at hw1
      exact not_digit_of_space c hw1.1
  have e2 : spanP isSpaceCh (w1 ++ (op :: (w2 ++ (d2 ++ rest)))) =
      (w1, op :: (w2 ++ (d2 ++ rest))) := by
    apply spanP_append _ _ _ hw1
    intro c t hct
    simp only [List.cons.injEq] at hct
    rw [hct.1] at hop
    exact not_space_of_op c hop
  have e3 : spanP isSpaceCh (w2 ++ (d2 ++ rest)) = (w2, d2 ++ rest) := by
    apply spanP_append _ _ _ hw2
    intro c t hct
    cases d2 with
    | nil => exact absurd rfl hd2
    | cons e d2t =>
      simp only [List.cons_append, List.cons.injEq] at hct
      simp only [List.all_cons, Bool.and_eq_true] at hd2d
      rw [hct.1] at hd2d
      exact not_space_of_digit c hd2d.1
  have hd1e : d1.isEmpty = false := by
    cases d1 with
    | nil => exact absurd rfl hd1
    | cons a t => rfl
  have e4 : (spanP isDigitCh (d1 ++ (w1 ++ (op :: (w2 ++ (d2 ++ rest)))))).1.isEmpty = false := by
    rw [e1]
    exact hd1e
  have e5 : (spanP isDigitCh (d2 ++ rest)).1.isEmpty = false := by
    cases d2 with
    | nil => exact absurd rfl hd2
    | cons e d2t =>
      simp only [List.all_cons, Bool.and_eq_true] at hd2d
      rw [List.cons_append, spanP_cons_pos _ _ _ hd2d.1]
      rfl
  simp only [matchCalcAt, e1, e4, e2, e3, e5, hop, hd1e, Bool.false_eq_true, if_false,
    if_true, Option.isSome_some]

theorem scanCalc_isSome (d1 w1 w2 d2 rest : List Char) (op : Char)
    (hd1 : d1 ≠ []) (hd1d : d1.all isDigitCh = true)
    (hw1 : w1.all isSpaceCh = true) (hop : isOpCh op = true)
    (hw2 : w2.all isSpaceCh = true)
    (hd2 : d2 ≠ []) (hd2d : d2.all isDigitCh = true) :
    ∀ pre : List Char,
      (scanCalc (pre ++ (d1 ++ (w1 ++ (op :: (w2 ++ (d2 ++ rest))))))).isSome = true
  | [] => by
    rw [List.nil_append]
    cases hd : d1 with
    | nil => exact absurd hd hd1
    | cons a t =>
      subst hd
      rw [List.cons_append]
      have hm := matchCalcAt_isSome (a :: t) w1 w2 d2 rest op hd1 hd1d hw1 hop hw2 hd2 hd2d
      rw [List.cons_append] at hm
      cases h : matchCalcAt (a :: (t ++ (w1 ++ (op :: (w2 ++ (d2 ++ rest)))))) with
      | some r => simp [scanCalc, h]
      | none => rw [h] at hm; exact absurd hm (by simp)
  | a :: pre => by
    rw [List.cons_append]
    cases h : matchCalcAt (a :: (pre ++ (d1 ++ (w1 ++ (op :: (w2 ++ (d2 ++ rest))))))) with
    | some r => simp [scanCalc, h]
    | none =>
      simp only [scanCalc, h]
      exact scanCalc_isSome d1 w1 w2 d2 rest op hd1 hd1d hw1 hop hw2 hd2 hd2d pre

-- ## Soundness: any scanner hit carries one of the four operator characters

theorem matchCalcAt_op (l : List Char) (n1 n2 : Int) (c : Char)
    (h : matchCalcAt l = some (n1, c, n2)) : isOpCh c = true := by
  simp only [matchCalcAt] at h
  split at h
  · exact absurd h (by simp)
  · split at h
    · exact absurd h (by simp)
    · rename_i c' r3 heq
      split at h
      · split at h
        · exact absurd h (by simp)
        · simp only [Option.some.injEq, Prod.mk.injEq] at h
          rename_i hop _
          rw [h.2.1] at hop
          exact hop
      · exact absurd h (by simp)

theorem scanCalc_op : ∀ (l : List Char) (n1 n2 : Int) (c : Char),
    scanCalc l = some (n1, c, n2) → isOpCh c = true
  | [], n1, n2, c, h => by simp [scanCalc] at h
  | a :: t, n1, n2, c, h => by
    simp only [scanCalc] at h
    cases hm : matchCalcAt (a :: t) with
    | some r =>
      rw [hm] at h
      simp only [Option.some.injEq] at h
      exact matchCalcAt_op (a :: t) n1 n2 c (by rw [hm, h])
    | none =>
      rw [hm] at h
      exact scanCalc_op t n1 n2 c h

theorem matchWhatIsAt_op (l : List Char) (n1 n2 : Int) (c : Char)
    (h : matchWhatIsAt l = some (n1, c, n2)) : isOpCh c = true := by
  simp only [matchWhatIsAt] at h
  split at h
  · exact matchCalcAt_op _ n1 n2 c h
  · exact absurd h (by simp)

theorem scanWhatIs_op : ∀ (l : List Char) (n1 n2 : Int) (c : Char),
    scanWhatIs l = some (n1, c, n2) → isOpCh c = true
  | [], n1, n2, c, h => by simp [scanWhatIs] at h
  | a :: t, n1, n2, c, h => by
    simp only [scanWhatIs] at h
    cases hm : matchWhatIsAt (a :: t) with
    | some r =>
      rw [hm] at h
      simp only [Option.some.injEq] at h
      exact matchWhatIsAt_op (a :: t) n1 n2 c (by rw [hm, h])
    | none =>
      rw [hm] at h
      exact scanWhatIs_op t n1 n2 c h

theorem operator_map_mem (w : List Char) (sym : String)
    (h : operator_map w = some sym) : sym ∈ (["+", "-", "*", "/"] : List String) := by
  simp only [operator_map] at h
  split at h <;> try (simp only [Option.some.injEq] at h; subst h; simp)
  split at h <;> try (simp only [Option.some.injEq] at h; subst h; simp)
  split at h <;> try (simp only [Option.some.injEq] at h; subst h; simp)
  split at h <;> try (simp only [Option.some.injEq] at h; subst h; simp)
  split at h <;> try (simp only [Option.some.injEq] at h; subst h; simp)
  split at h <;> try (simp only [Option.some.injEq] at h; subst h; simp)
  split at h <;> try (simp only [Option.some.injEq] at h; subst h; simp)
  split at h <;> try (simp only [Option.some.injEq] at h; subst h; simp)
  exact absurd h (by simp)

-- ## No digit anywhere means the digit-anchored patterns cannot match

theorem matchCalcAt_none (l : List Char) (h : ∀ c ∈ l, isDigitCh c = false) :
    matchCalcAt l = none := by
  cases l with
  | nil => rfl
  | cons c t =>
    rw [matchCalcAt, spanP_cons_neg _ _ _ (h c (List.mem_cons_self c t))]
    rfl

theorem scanCalc_none : ∀ l : List Char, (∀ c ∈ l, isDigitCh c = false) →
    scanCalc l = none
  | [], _ => rfl
  | c :: t, h => by
    rw [scanCalc, matchCalcAt_none (c :: t) h]
    exact scanCalc_none t (fun a ha => h a (List.mem_cons_of_mem c ha))

theorem matchNLAt_none (l : List Char) (h : ∀ c ∈ l, isDigitCh c = false) :
    matchNLAt l = none := by
  cases l with
  | nil => rfl
  | cons c t =>
    rw [matchNLAt, spanP_cons_neg _ _ _ (h c (List.mem_cons_self c t))]
    rfl

theorem scanNL_none : ∀ l : List Char, (∀ c ∈ l, isDigitCh c = false) →
    scanNL l = none
  | [], _ => rfl
  | c :: t, h => by
    rw [scanNL, matchNLAt_none (c :: t) h]
    exact scanNL_none t (fun a ha => h a (List.mem_cons_of_mem c ha))

theorem matchWhatIsAt_none (l : List Char) (h : ∀ c ∈ l, isDigitCh c = false) :
    matchWhatIsAt l = none := by
  rw [matchWhatIsAt]
  split
  · exact matchCalcAt_none _ (fun a ha =>
      h a ((List.drop_sublist whatIsLit.length l).subset ha))
  · rfl

theorem scanWhatIs_none : ∀ l : List Char, (∀ c ∈ l, isDigitCh c = false) →
    scanWhatIs l = none
  | [], _ => rfl
  | c :: t, h => by
    rw [scanWhatIs, matchWhatIsAt_none (c :: t) h]
    exact scanWhatIs_none t (fun a ha => h a (List.mem_cons_of_mem c ha))

theorem findDigitThroughWS_false : ∀ l : List Char, (∀ c ∈ l, isDigitCh c = false) →
    findDigitThroughWS l = false
  | [], _ => rfl
  | c :: t, h => by
    rw [findDigitThroughWS, h c (List.mem_cons_self c t)]
    simp only [Bool.false_eq_true, if_false]
    split
    · exact findDigitThroughWS_false t (fun a ha => h a (List.mem_cons_of_mem c ha))
    · rfl

theorem matchWhatsAt_false (l : List Char) (h : ∀ c ∈ l, isDigitCh c = false) :
    matchWhatsAt l = false := by
  rw [matchWhatsAt]
  cases hd : l.drop whatsLit.length with
  | nil => simp
  | cons c t =>
    have hsub : ∀ a ∈ c :: t, isDigitCh a = false := by
      intro a ha
      exact h a ((List.drop_sublist whatsLit.length l).subset (hd ▸ ha))
    simp [findDigitThroughWS_false t (fun a ha => hsub a (List.mem_cons_of_mem c ha))]

theorem scanWhats_false : ∀ l : List Char, (∀ c ∈ l, isDigitCh c = false) →
    scanWhats l = false
  | [], _ => rfl
  | c :: t, h => by
    rw [scanWhats, matchWhatsAt_false (c :: t) h]
    rw [scanWhats_false t (fun a ha => h a (List.mem_cons_of_mem c ha))]
    rfl

theorem matchSSAt_false (l : List Char) (h : ∀ c ∈ l, isDigitCh c = false) :
    matchSSAt l = false := by
  match l with
  | [] => rfl
  | [c] =>
    rw [matchSSAt.eq_def]
    split
    · rename_i heq
      exact absurd heq (by simp)
    · rfl
  | c :: d :: r =>
    rw [matchSSAt.eq_def]
    split
    · rename_i r2 heq
      injection heq with h1 heq2
      injection heq2 with h2 h3
      subst h3
      cases hs : (spanP isSpaceCh r).2 with
      | nil => rfl
      | cons e t =>
        have he : e ∈ r :=
          (spanP_snd_sublist isSpaceCh r).subset (hs ▸ List.mem_cons_self e t)
        exact h e (List.mem_cons_of_mem c (List.mem_cons_of_mem d he))
    · rfl

theorem scanSS_false : ∀ l : List Char, (∀ c ∈ l, isDigitCh c = false) →
    scanSS l = false
  | [], _ => rfl
  | c :: t, h => by
    rw [scanSS, matchSSAt_false (c :: t) h]
    rw [scanSS_false t (fun a ha => h a (List.mem_cons_of_mem c ha))]
    rfl

-- ## Claim theorems: the planner

/-- C1: for every input string matching the symbolic pattern
`<int> <op> <int>` (digits, optional whitespace, one of `+ - * /`, optional
whitespace, digits), extract_calculation_data returns exactly the
num1/operator/num2 dict of the first (leftmost, greedy) such match, which is
what `scanCalc` computes. -/
theorem extract_calculation_first_match
    (s pre d1 w1 w2 d2 rest : List Char) (op : Char)
    (hs : s = pre ++ (d1 ++ (w1 ++ (op :: (w2 ++ (d2 ++ rest))))))
    (hd1 : d1 ≠ []) (hd1d : d1.all isDigitCh = true)
    (hw1 : w1.all isSpaceCh = true) (hop : isOpCh op = true)
    (hw2 : w2.all isSpaceCh = true)
    (hd2 : d2 ≠ []) (hd2d : d2.all isDigitCh = true) :
    ∃ n1 c n2, scanCalc s = some (n1, c, n2) ∧
      extract_calculation_data s = some ⟨n1, String.mk [c], n2⟩ := by
  subst hs
  have hsome := scanCalc_isSome d1 w1 w2 d2 rest op hd1 hd1d hw1 hop hw2 hd2 hd2d pre
  obtain ⟨r, hr⟩ := Option.isSome_iff_exists.mp hsome
  obtain ⟨n1, c, n2⟩ := r
  refine ⟨n1, c, n2, hr, ?_⟩
  simp [extract_calculation_data, hr]

/-- Witness for C1 at the concrete input "12 + 34". -/
theorem extract_calculation_first_match_witness :
    ("12 + 34".toList =
      ([] : List Char) ++ (['1', '2'] ++ ([' '] ++ ('+' :: ([' '] ++ (['3', '4'] ++ ([] : List Char))))))) ∧
    (∃ n1 c n2, scanCalc "12 + 34".toList = some (n1, c, n2) ∧
      extract_calculation_data "12 + 34".toList = some ⟨n1, String.mk [c], n2⟩) :=
  ⟨by decide,
   extract_calculation_first_match "12 + 34".toList [] ['1', '2'] [' '] [' '] ['3', '4'] [] '+'
     (by decide) (by decide) (by decide) (by decide) (by decide) (by decide) (by decide) (by decide)⟩

/-- C9: extract_calculation_data never returns a partial dict: any returned
value is a complete CalcData record (all three keys, by construction of the
return type) whose operator is one of the four symbols `+ - * /` and whose
operands are integers. -/
theorem extract_calculation_complete_dict (s : List Char) (d : CalcData)
    (h : extract_calculation_data s = some d) :
    d.operator ∈ (["+", "-", "*", "/"] : List String) := by
  simp only [extract_calculation_data] at h
  cases hc : scanCalc s with
  | some r =>
    obtain ⟨n1, c, n2⟩ := r
    simp only [hc, Option.some.injEq] at h
    subst h
    have hop := scanCalc_op s n1 n2 c hc
    simp only [isOpCh, Bool.or_eq_true, beq_iff_eq] at hop
    show String.mk [c] ∈ (["+", "-", "*", "/"] : List String)
    rcases hop with ((h1 | h1) | h1) | h1 <;> subst h1 <;> decide
  | none =>
    simp only [hc] at h
    cases hn : scanNL (toLowerList s) with
    | some r =>
      obtain ⟨n1, w, n2⟩ := r
      simp only [hn] at h
      cases hm : operator_map w with
      | some sym =>
        simp only [hm, Option.some.injEq] at h
        subst h
        exact operator_map_mem w sym hm
      | none =>
        simp only [hm] at h
        cases hw : scanWhatIs (toLowerList s) with
        | some r2 =>
          obtain ⟨m1, c, m2⟩ := r2
          simp only [hw, Option.some.injEq] at h
          subst h
          have hop := scanWhatIs_op (toLowerList s) m1 m2 c hw
          simp only [isOpCh, Bool.or_eq_true, beq_iff_eq] at hop
          show String.mk [c] ∈ (["+", "-", "*", "/"] : List String)
          rcases hop with ((h1 | h1) | h1) | h1 <;> subst h1 <;> decide
        | none =>
          simp only [hw] at h
          exact Option.noConfusion h
    | none =>
      simp only [hn] at h
      cases hw : scanWhatIs (toLowerList s) with
      | some r2 =>
        obtain ⟨m1, c, m2⟩ := r2
        simp only [hw, Option.some.injEq] at h
        subst h
        have hop := scanWhatIs_op (toLowerList s) m1 m2 c hw
        simp only [isOpCh, Bool.or_eq_true, beq_iff_eq] at hop
        show String.mk [c] ∈ (["+", "-", "*", "/"] : List String)
        rcases hop with ((h1 | h1) | h1) | h1 <;> subst h1 <;> decide
      | none =>
        simp only [hw] at h
        exact Option.noConfusion h

/-- Witness for C9 at the concrete input "5 + 3". -/
theorem extract_calculation_complete_dict_witness :
    extract_calculation_data "5 + 3".toList = some ⟨5, "+", 3⟩ ∧
    (CalcData.mk 5 "+" 3).operator ∈ (["+", "-", "*", "/"] : List String) :=
  ⟨by decide, extract_calculation_complete_dict "5 + 3".toList ⟨5, "+", 3⟩ (by decide)⟩

/-- C2 counterexample: the input "outlet" contains no digit character and no
arithmetic keyword (none of `sum of`, `difference of`, `product of`,
`quotient of`, `calculate`, `math`, nor the catch-all literal what's), yet
analyze_intent classifies it as OUTLET_INFO, not GENERAL_CHAT. -/
theorem analyze_intent_no_digit_no_arith_cex :
    ("outlet".toList.all (fun c => !isDigitCh c) = true) ∧
    calcKeywordHit (toLowerList "outlet".toList) = false ∧
    containsSub (toLowerList "outlet".toList) whatAposPat = false ∧
    analyze_intent "outlet".toList ≠ Intent.GENERAL_CHAT := by
  decide

/-- C2 (amended): for every input whose lower-cased text contains no digit
character, none of the arithmetic keywords, not the bare literal what's, and
none of the outlet keywords, analyze_intent returns GENERAL_CHAT. -/
theorem analyze_intent_general_chat_amended (s : List Char)
    (hd : (toLowerList s).all (fun c => !isDigitCh c) = true)
    (hk : calcKeywordHit (toLowerList s) = false)
    (ha : containsSub (toLowerList s) whatAposPat = false)
    (ho : outletKeywordHit (toLowerList s) = false) :
    analyze_intent s = Intent.GENERAL_CHAT := by
  have hd' : ∀ c ∈ toLowerList s, isDigitCh c = false := by
    intro c hc
    have := List.all_eq_true.mp hd c hc
    simpa using this
  have h1 := scanCalc_none _ hd'
  have h2 := scanWhatIs_none _ hd'
  have h3 := scanNL_none _ hd'
  have h4 := scanWhats_false _ hd'
  have h5 := scanSS_false _ hd'
  simp [analyze_intent, calculation_patterns_hit, whatsCatchAllHit,
    outlet_patterns_hit, h1, h2, h3, h4, h5, hk, ha, ho]

/-- Witness for the amended C2 at the concrete input "hello there". -/
theorem analyze_intent_general_chat_amended_witness :
    ((toLowerList "hello there".toList).all (fun c => !isDigitCh c) = true) ∧
    calcKeywordHit (toLowerList "hello there".toList) = false ∧
    containsSub (toLowerList "hello there".toList) whatAposPat = false ∧
    outletKeywordHit (toLowerList "hello there".toList) = false ∧
    analyze_intent "hello there".toList = Intent.GENERAL_CHAT :=
  ⟨by decide, by decide, by decide, by decide,
   analyze_intent_general_chat_amended "hello there".toList
     (by decide) (by decide) (by decide) (by decide)⟩

/-- C3: whenever the intent is OUTLET_INFO and outlet extraction resolves a
specific location (SS2, SS15 or Damansara), plan_next_action selects
USE_OUTLET_DB with confidence 0.9, regardless of what else (such as a
general-area phrase) appears in the input. -/
theorem plan_next_action_specific_outlet (s : List Char) (d : OutletData) (loc : String)
    (h1 : analyze_intent s = Intent.OUTLET_INFO)
    (h2 : extract_outlet_data s = some d)
    (h3 : d.location = some loc)
    (h4 : loc = "SS2" ∨ loc = "SS15" ∨ loc = "Damansara") :
    (plan_next_action s).action = Action.USE_OUTLET_DB ∧
      (plan_next_action s).confidence = 0.9 := by
  have hc1 : specificLocFound d = true := by
    rw [specificLocFound, h3]
    rcases h4 with h | h | h <;> subst h <;> decide
  simp [plan_next_action, h1, h2, hc1]

/-- Witness for C3 at "ss2 outlet in pj", which names a specific outlet and a
general-area phrase in the same input. -/
theorem plan_next_action_specific_outlet_witness :
    analyze_intent "ss2 outlet in pj".toList = Intent.OUTLET_INFO ∧
    extract_outlet_data "ss2 outlet in pj".toList = some ⟨some "SS2", none⟩ ∧
    (OutletData.mk (some "SS2") none).location = some "SS2" ∧
    (("SS2" : String) = "SS2" ∨ ("SS2" : String) = "SS15" ∨ ("SS2" : String) = "Damansara") ∧
    ((plan_next_action "ss2 outlet in pj".toList).action = Action.USE_OUTLET_DB ∧
      (plan_next_action "ss2 outlet in pj".toList).confidence = 0.9) :=
  ⟨by decide, by decide, by decide, Or.inl rfl,
   plan_next_action_specific_outlet "ss2 outlet in pj".toList ⟨some "SS2", none⟩ "SS2"
     (by decide) (by decide) (by decide) (Or.inl rfl)⟩

/-- C4: on the input "SS 2, whats the opening time?" the planner returns
USE_OUTLET_DB with extracted location "SS2" and info_type "opening_hours". -/
theorem plan_next_action_ss2_opening_time :
    (plan_next_action "SS 2, whats the opening time?".toList).action = Action.USE_OUTLET_DB ∧
    (plan_next_action "SS 2, whats the opening time?".toList).extracted_data =
      some (ExtractedData.outlet ⟨some "SS2", some "opening_hours"⟩) := by
  decide

/-- C5: a division request with second operand 0 yields the descriptive error
string; the function is total, so nothing is raised to the caller. -/
theorem perform_simple_calculation_div_zero (num1 num2 : Int) (h : num2 = 0) :
    perform_simple_calculation num1 "/" num2 =
      "Error: Division by zero is not allowed." := by
  subst h
  rfl

/-- Witness for C5 at num1 = 7. -/
theorem perform_simple_calculation_div_zero_witness :
    ((0 : Int) = 0) ∧
    perform_simple_calculation 7 "/" 0 = "Error: Division by zero is not allowed." :=
  ⟨rfl, perform_simple_calculation_div_zero 7 0 rfl⟩

/-- C10: for any operator string other than the four arithmetic symbols,
perform_simple_calculation returns the invalid-operator error string; being a
total function, it never raises. -/
theorem perform_simple_calculation_invalid_op (num1 num2 : Int) (op : String)
    (h1 : op ≠ "+") (h2 : op ≠ "-") (h3 : op ≠ "*") (h4 : op ≠ "/") :
    perform_simple_calculation num1 op num2 =
      "Error: Invalid operator for calculation." := by
  simp [perform_simple_calculation, h1, h2, h3, h4]

/-- Witness for C10 at the operator "%". -/
theorem perform_simple_calculation_invalid_op_witness :
    (("%" : String) ≠ "+") ∧ (("%" : String) ≠ "-") ∧
    (("%" : String) ≠ "*") ∧ (("%" : String) ≠ "/") ∧
    perform_simple_calculation 1 "%" 2 = "Error: Invalid operator for calculation." :=
  ⟨by decide, by decide, by decide, by decide,
   perform_simple_calculation_invalid_op 1 2 "%" (by decide) (by decide) (by decide) (by decide)⟩

-- ## List access lemmas for the heap model

theorem getD_append_left {α : Type} : ∀ (l r : List α) (i : Nat) (d : α), i < l.length →
    (l ++ r).getD i d = l.getD i d
  | [], _, i, _, h => absurd h (by simp)
  | _ :: _, _, 0, _, _ => rfl
  | a :: t, r, i + 1, d, h => by
    show (t ++ r).getD i d = t.getD i d
    exact getD_append_left t r i d (Nat.lt_of_succ_lt_succ h)

theorem getD_append_self {α : Type} : ∀ (l : List α) (x d : α),
    (l ++ [x]).getD l.length d = x
  | [], _, _ => rfl
  | a :: t, x, d => by
    show (t ++ [x]).getD t.length d = x
    exact getD_append_self t x d

theorem getD_set_self {α : Type} : ∀ (l : List α) (i : Nat) (v d : α), i < l.length →
    (l.set i v).getD i d = v
  | [], _, _, _, h => absurd h (by simp)
  | _ :: _, 0, _, _, _ => rfl
  | a :: t, i + 1, v, d, h => by
    show (t.set i v).getD i d = v
    exact getD_set_self t i v d (Nat.lt_of_succ_lt_succ h)

theorem getD_set_ne {α : Type} : ∀ (l : List α) (i j : Nat) (v d : α), i ≠ j →
    (l.set i v).getD j d = l.getD j d
  | [], _, _, _, _, _ => rfl
  | _ :: _, 0, 0, _, _, h => absurd rfl h
  | _ :: _, 0, _ + 1, _, _, _ => rfl
  | _ :: _, _ + 1, 0, _, _, _ => rfl
  | a :: t, i + 1, j + 1, v, d, h => by
    show (t.set i v).getD j d = t.getD j d
    exact getD_set_ne t i j v d (fun he => h (by rw [he]))

-- ## Dict lookup lemmas

theorem lookupTable_mem : ∀ (t : List (String × Nat)) (sid : String) (a : Nat),
    lookupTable t sid = some a → (sid, a) ∈ t
  | [], _, _, h => by simp [lookupTable] at h
  | (x, b) :: t, sid, a, h => by
    rw [lookupTable] at h
    split at h
    · rename_i hx
      simp only [Option.some.injEq] at h
      subst h
      subst hx
      exact List.mem_cons_self _ _
    · exact List.mem_cons_of_mem _ (lookupTable_mem t sid a h)

theorem lookupTable_none_not_mem : ∀ (t : List (String × Nat)) (sid : String),
    lookupTable t sid = none → ∀ p ∈ t, p.1 ≠ sid
  | [], _, _ => by intro p hp; simp at hp
  | (x, b) :: t, sid, h => by
    rw [lookupTable] at h
    split at h
    · exact Option.noConfusion h
    · rename_i hx
      intro p hp
      rcases List.mem_cons.mp hp with hp | hp
      · subst hp; exact hx
      · exact lookupTable_none_not_mem t sid h p hp

theorem lookupTable_append_self : ∀ (t : List (String × Nat)) (sid : String) (v : Nat),
    lookupTable t sid = none → lookupTable (t ++ [(sid, v)]) sid = some v
  | [], sid, v, _ => by simp [lookupTable]
  | (x, b) :: t, sid, v, h => by
    rw [lookupTable] at h
    rw [List.cons_append, lookupTable]
    split at h
    · exact Option.noConfusion h
    · rename_i hx
      rw [if_neg hx]
      exact lookupTable_append_self t sid v h

theorem lookupTable_append_other : ∀ (t : List (String × Nat)) (sid other : String) (v : Nat),
    other ≠ sid → lookupTable (t ++ [(sid, v)]) other = lookupTable t other
  | [], sid, other, v, h => by
    simp [lookupTable, Ne.symm h]
  | (x, b) :: t, sid, other, v, h => by
    rw [List.cons_append, lookupTable, lookupTable]
    by_cases hx : x = other
    · rw [if_pos hx, if_pos hx]
    · rw [if_neg hx, if_neg hx]
      exact lookupTable_append_other t sid other v h

-- ## get_session_history / addMessage / appendPair lemmas

theorem WF_addr_ne (s : Store) (hwf : WF s) (sid other : String) (a b : Nat)
    (h1 : lookupTable s.table sid = some a) (h2 : lookupTable s.table other = some b)
    (hne : sid ≠ other) : a ≠ b := by
  have m1 := lookupTable_mem s.table sid a h1
  have m2 := lookupTable_mem s.table other b h2
  have hsym : Symmetric (fun p q : String × Nat => p.1 ≠ q.1 ∧ p.2 ≠ q.2) :=
    fun p q h => ⟨h.1.symm, h.2.symm⟩
  have hne2 : (sid, a) ≠ (other, b) := fun he => hne (congrArg Prod.fst he)
  exact (hwf.2.forall hsym m1 m2 hne2).2

theorem gsh_lookup (s : Store) (sid : String) :
    lookupTable (get_session_history s sid).1.table sid =
      some (get_session_history s sid).2 := by
  cases h : lookupTable s.table sid with
  | some a => simp [get_session_history, h]
  | none =>
    simp only [get_session_history, h]
    exact lookupTable_append_self s.table sid s.heap.length h

theorem gsh_addr_lt (s : Store) (sid : String) (hwf : WF s) :
    (get_session_history s sid).2 < (get_session_history s sid).1.heap.length := by
  cases h : lookupTable s.table sid with
  | some a =>
    simp only [get_session_history, h]
    exact hwf.1 (sid, a) (lookupTable_mem s.table sid a h)
  | none =>
    simp only [get_session_history, h, List.length_append, List.length_singleton]
    omega

theorem gsh_heapAt (s : Store) (sid : String) :
    heapAt (get_session_history s sid).1 (get_session_history s sid).2 =
      historyOf s sid := by
  cases h : lookupTable s.table sid with
  | some a => simp [get_session_history, h, historyOf, heapAt]
  | none =>
    simp only [get_session_history, h, historyOf, heapAt]
    exact getD_append_self s.heap [] []

theorem gsh_frame (s : Store) (sid other : String) (hwf : WF s) (hne : other ≠ sid) :
    historyOf (get_session_history s sid).1 other = historyOf s other := by
  cases h : lookupTable s.table sid with
  | some a => simp [get_session_history, h]
  | none =>
    simp only [get_session_history, h, historyOf, heapAt]
    rw [lookupTable_append_other s.table sid other s.heap.length hne]
    cases hb : lookupTable s.table other with
    | some b =>
      have hblt : b < s.heap.length := hwf.1 (other, b) (lookupTable_mem s.table other b hb)
      exact getD_append_left s.heap [[]] b [] hblt
    | none => rfl

theorem gsh_WF (s : Store) (sid : String) (hwf : WF s) :
    WF (get_session_history s sid).1 := by
  cases h : lookupTable s.table sid with
  | some a => simpa [get_session_history, h] using hwf
  | none =>
    simp only [get_session_history, h]
    constructor
    · intro p hp
      rcases List.mem_append.mp hp with hp | hp
      · have h1 := hwf.1 p hp
        simp only [List.length_append, List.length_singleton]
        omega
      · have hp' := List.mem_singleton.mp hp
        subst hp'
        simp only [List.length_append, List.length_singleton]
        show s.heap.length < s.heap.length + 1
        omega
    · rw [List.pairwise_append]
      refine ⟨hwf.2, List.pairwise_singleton _ _, ?_⟩
      intro p hp q hq
      have hq' := List.mem_singleton.mp hq
      subst hq'
      refine ⟨lookupTable_none_not_mem s.table sid h p hp, ?_⟩
      exact Nat.ne_of_lt (hwf.1 p hp)

theorem addMessage_heap_length (s : Store) (a : Nat) (t : Turn) :
    (addMessage s a t).heap.length = s.heap.length := by
  simp [addMessage]

theorem addMessage_WF (s : Store) (a : Nat) (t : Turn) (hwf : WF s) :
    WF (addMessage s a t) := by
  constructor
  · intro p hp
    rw [addMessage_heap_length]
    exact hwf.1 p hp
  · exact hwf.2

theorem addMessage_historyOf_self (s : Store) (a : Nat) (t : Turn) (sid : String)
    (hl : lookupTable s.table sid = some a) (ha : a < s.heap.length) :
    historyOf (addMessage s a t) sid = historyOf s sid ++ [t] := by
  simp only [historyOf, addMessage, hl, heapAt]
  exact getD_set_self s.heap a (s.heap.getD a [] ++ [t]) [] ha

theorem addMessage_historyOf_other (s : Store) (a : Nat) (t : Turn) (other : String)
    (hb : ∀ b, lookupTable s.table other = some b → b ≠ a) :
    historyOf (addMessage s a t) other = historyOf s other := by
  simp only [historyOf, addMessage, heapAt]
  cases h : lookupTable s.table other with
  | some b => exact getD_set_ne s.heap a b _ [] (fun he => hb b h he.symm)
  | none => rfl

theorem appendPair_historyOf_self (s : Store) (sid : String) (u a : String) (hwf : WF s) :
    historyOf (appendPair s sid u a) sid =
      historyOf s sid ++ [⟨Role.user, u⟩, ⟨Role.agent, a⟩] := by
  have hl := gsh_lookup s sid
  have hlt := gsh_addr_lt s sid hwf
  have hha := gsh_heapAt s sid
  set p := get_session_history s sid with hp
  have h1 : historyOf (addMessage p.1 p.2 ⟨Role.user, u⟩) sid =
      historyOf p.1 sid ++ [⟨Role.user, u⟩] :=
    addMessage_historyOf_self p.1 p.2 _ sid hl hlt
  have hl2 : lookupTable (addMessage p.1 p.2 ⟨Role.user, u⟩).table sid = some p.2 := hl
  have hlt2 : p.2 < (addMessage p.1 p.2 ⟨Role.user, u⟩).heap.length := by
    rw [addMessage_heap_length]
    exact hlt
  have h2 : historyOf (addMessage (addMessage p.1 p.2 ⟨Role.user, u⟩) p.2 ⟨Role.agent, a⟩) sid =
      historyOf (addMessage p.1 p.2 ⟨Role.user, u⟩) sid ++ [⟨Role.agent, a⟩] :=
    addMessage_historyOf_self _ p.2 _ sid hl2 hlt2
  have h0 : historyOf p.1 sid = historyOf s sid := by
    simp only [historyOf, hl]
    exact hha
  show historyOf (addMessage (addMessage p.1 p.2 ⟨Role.user, u⟩) p.2 ⟨Role.agent, a⟩) sid = _
  rw [h2, h1, h0, List.append_assoc]
  rfl

theorem appendPair_historyOf_other (s : Store) (sid other : String) (u a : String)
    (hwf : WF s) (hne : other ≠ sid) :
    historyOf (appendPair s sid u a) other = historyOf s other := by
  have hl := gsh_lookup s sid
  have hwf1 := gsh_WF s sid hwf
  set p := get_session_history s sid with hp
  have hb : ∀ b, lookupTable p.1.table other = some b → b ≠ p.2 := by
    intro b hbl
    exact WF_addr_ne p.1 hwf1 other sid b p.2 hbl hl hne
  have hb2 : ∀ b, lookupTable (addMessage p.1 p.2 ⟨Role.user, u⟩).table other = some b →
      b ≠ p.2 := hb
  show historyOf (addMessage (addMessage p.1 p.2 ⟨Role.user, u⟩) p.2 ⟨Role.agent, a⟩) other = _
  rw [addMessage_historyOf_other _ _ _ _ hb2, addMessage_historyOf_other _ _ _ _ hb]
  exact gsh_frame s sid other hwf hne

theorem appendPair_WF (s : Store) (sid : String) (u a : String) (hwf : WF s) :
    WF (appendPair s sid u a) :=
  addMessage_WF _ _ _ (addMessage_WF _ _ _ (gsh_WF s sid hwf))

theorem process_user_input_fst (llm : List Turn → String → String)
    (s : Store) (inp sid : String) :
    (process_user_input llm s inp sid).1 =
      appendPair s sid inp (process_user_input llm s inp sid).2 := rfl

theorem pairsOk_append_pair (u a : Turn) (hu : u.role = Role.user) (ha : a.role = Role.agent) :
    ∀ l : List Turn, pairsOk l = true → pairsOk (l ++ [u, a]) = true
  | [], _ => by
    show pairsOk [u, a] = true
    rw [pairsOk, hu, ha]
    rfl
  | [x], h => by
    rw [pairsOk] at h
    exact absurd h (by simp)
  | x :: y :: t, h => by
    rw [pairsOk, Bool.and_eq_true, Bool.and_eq_true] at h
    show pairsOk (x :: y :: (t ++ [u, a])) = true
    rw [pairsOk, Bool.and_eq_true, Bool.and_eq_true]
    exact ⟨⟨h.1.1, h.1.2⟩, pairsOk_append_pair u a hu ha t h.2⟩

/-- One controller call appends exactly the pair (user input turn, agent reply
turn) to the target session, preserves well-formedness, and leaves every other
session untouched; this is the induction step behind the C6 invariant. -/
theorem fold_process_inv (llm : List Turn → String → String) (sid : String) :
    ∀ (inputs : List String) (s : Store) (n : Nat),
      WF s → pairsOk (historyOf s sid) = true → (historyOf s sid).length = 2 * n →
      WF (inputs.foldl (fun st inp => (process_user_input llm st inp sid).1) s) ∧
      pairsOk (historyOf
        (inputs.foldl (fun st inp => (process_user_input llm st inp sid).1) s) sid) = true ∧
      (historyOf
        (inputs.foldl (fun st inp => (process_user_input llm st inp sid).1) s) sid).length =
        2 * (n + inputs.length)
  | [], s, n, hwf, hp, hl => by
    simp only [List.foldl_nil, List.length_nil, Nat.add_zero]
    exact ⟨hwf, hp, hl⟩
  | inp :: t, s, n, hwf, hp, hl => by
    rw [List.foldl_cons]
    have hfst : (process_user_input llm s inp sid).1 =
        appendPair s sid inp (process_user_input llm s inp sid).2 := rfl
    have hh : historyOf (process_user_input llm s inp sid).1 sid =
        historyOf s sid ++
          [⟨Role.user, inp⟩, ⟨Role.agent, (process_user_input llm s inp sid).2⟩] := by
      rw [hfst]
      exact appendPair_historyOf_self s sid inp _ hwf
    have hwf1 : WF (process_user_input llm s inp sid).1 := by
      rw [hfst]
      exact appendPair_WF s sid inp _ hwf
    have hp1 : pairsOk (historyOf (process_user_input llm s inp sid).1 sid) = true := by
      rw [hh]
      exact pairsOk_append_pair _ _ rfl rfl _ hp
    have hl1 : (historyOf (process_user_input llm s inp sid).1 sid).length = 2 * (n + 1) := by
      rw [hh]
      simp only [List.length_append, hl, List.length_cons, List.length_nil]
      omega
    have hrec := fold_process_inv llm sid t (process_user_input llm s inp sid).1 (n + 1)
      hwf1 hp1 hl1
    refine ⟨hrec.1, hrec.2.1, ?_⟩
    rw [hrec.2.2]
    simp only [List.length_cons]
    omega

-- ## Claim theorems: session memory

/-- C6: starting from a fresh controller, after any sequence of N calls to
process_user_input on one session (with any behaviour of the generative
collaborator), that session's stored history has length exactly 2N and
alternates user/agent: every even-indexed turn is a user turn, every
odd-indexed turn an agent turn, which is what pairsOk checks. -/
theorem process_user_input_turn_invariant
    (llm : List Turn → String → String) (sid : String) (inputs : List String) :
    (historyOf (inputs.foldl (fun st inp => (process_user_input llm st inp sid).1) initStore)
        sid).length = 2 * inputs.length ∧
    pairsOk (historyOf
      (inputs.foldl (fun st inp => (process_user_input llm st inp sid).1) initStore) sid) =
      true := by
  have hwf0 : WF initStore :=
    ⟨fun p hp => absurd hp (List.not_mem_nil p), List.Pairwise.nil⟩
  have h := fold_process_inv llm sid inputs initStore 0 hwf0 rfl rfl
  exact ⟨by simpa using h.2.2, h.2.1⟩

/-- C7: get_session_history is idempotent: the second call returns the very
same store and the same history-object address as the first (same identity,
no copy, no new allocation), and the first call on an unseen session id
registers an empty history. -/
theorem get_session_history_idempotent (s : Store) (sid : String) :
    get_session_history (get_session_history s sid).1 sid = get_session_history s sid ∧
    (lookupTable s.table sid = none →
      heapAt (get_session_history s sid).1 (get_session_history s sid).2 = []) := by
  cases h : lookupTable s.table sid with
  | some a =>
    constructor
    · simp [get_session_history, h]
    · intro hn
      exact Option.noConfusion hn
  | none =>
    constructor
    · have h2 := lookupTable_append_self s.table sid s.heap.length h
      simp [get_session_history, h, h2]
    · intro _
      simp only [get_session_history, h, heapAt]
      exact getD_append_self s.heap [] []

/-- Witness for C7 on a fresh controller and the unseen session id "A". -/
theorem get_session_history_idempotent_witness :
    lookupTable initStore.table "A" = none ∧
    (get_session_history (get_session_history initStore "A").1 "A" =
        get_session_history initStore "A" ∧
      heapAt (get_session_history initStore "A").1 (get_session_history initStore "A").2 = []) :=
  ⟨rfl,
   (get_session_history_idempotent initStore "A").1,
   (get_session_history_idempotent initStore "A").2 rfl⟩

/-- C8: in a well-formed store, one process_user_input call on session A
leaves the stored history of any other session B unchanged. -/
theorem process_user_input_session_isolation
    (llm : List Turn → String → String) (s : Store) (A B inp : String)
    (hwf : WF s) (hne : A ≠ B) :
    historyOf (process_user_input llm s inp A).1 B = historyOf s B := by
  rw [process_user_input_fst]
  exact appendPair_historyOf_other s A B inp _ hwf (Ne.symm hne)

/-- Witness for C8 on a fresh controller, sessions "A" and "B". -/
theorem process_user_input_session_isolation_witness :
    WF initStore ∧ ("A" : String) ≠ "B" ∧
    historyOf (process_user_input (fun _ _ => "") initStore "hi" "A").1 "B" =
      historyOf initStore "B" :=
  ⟨⟨fun p hp => absurd hp (List.not_mem_nil p), List.Pairwise.nil⟩,
   by decide,
   process_user_input_session_isolation (fun _ _ => "") initStore "A" "B" "hi"
     ⟨fun p hp => absurd hp (List.not_mem_nil p), List.Pairwise.nil⟩ (by decide)⟩

end Mindhive
